import Mathlib

/-!
Verification of the `mister_core` image library: channels, images, and the
RGBA image format. Definitions below are shallow embeddings of the Rust code
in `src/mister_core/src/image.rs` and `src/mister_core/src/format/rgba.rs`.
Samples of an RGBA image are `f32` values; we model them by the type `F`
below: a rational payload or NaN, with IEEE-style comparisons (every
comparison involving NaN is false). Panics (`Vec::remove` / `Vec::insert`
index panics, `Option::unwrap` on `None`) are modelled by returning `none`
from an `Option`-valued function.
-/

/-! ### List helpers (behaviour of `Vec::remove`, `Vec::insert`, slice indexing) -/

/-- Embeds `Vec::remove(i)`: removes and shifts left; `none` models the panic when
`i >= len`. -/
def vecRemove {T : Type} : List T → Nat → Option (List T)
  | [], _ => none
  | _ :: xs, 0 => some xs
  | x :: xs, n + 1 => (vecRemove xs n).map (fun l => x :: l)

/-- Embeds `Vec::insert(i, v)`: inserts at `i`, shifting right; `none` models the
panic when `i > len`. -/
def vecInsert {T : Type} : List T → Nat → T → Option (List T)
  | xs, 0, v => some (v :: xs)
  | [], _ + 1, _ => none
  | x :: xs, n + 1, v => (vecInsert xs n v).map (fun l => x :: l)

theorem vecRemove_isSome {T : Type} (l : List T) (i : Nat) :
    (vecRemove l i).isSome = true ↔ i < l.length := by
  induction l generalizing i with
  | nil => simp [vecRemove]
  | cons x xs ih =>
    cases i with
    | zero => simp [vecRemove]
    | succ n =>
      simp only [vecRemove, List.length_cons]
      cases hr : vecRemove xs n with
      | none =>
        simp only [Option.map_none', Option.isSome_none, Bool.false_eq_true,
          false_iff]
        intro hlt
        have h2 := (ih n).mpr (by omega)
        rw [hr] at h2
        simp at h2
      | some d =>
        have hlt : n < xs.length := by
          have h2 := (ih n).mp
          rw [hr] at h2
          exact h2 rfl
        simp only [Option.map_some', Option.isSome_some, true_iff]
        omega

theorem vecRemove_insert_eq_set {T : Type} (l : List T) (i : Nat) (v : T)
    (h : i < l.length) :
    (vecRemove l i).bind (fun d => vecInsert d i v) = some (l.set i v) := by
  induction l generalizing i with
  | nil => simp at h
  | cons x xs ih =>
    cases i with
    | zero => simp [vecRemove, vecInsert]
    | succ n =>
      simp only [List.length_cons] at h
      have hn : n < xs.length := by omega
      have := ih n hn
      cases hr : vecRemove xs n with
      | none =>
        rw [hr] at this; simp at this
      | some d =>
        rw [hr] at this
        simp only [Option.some_bind] at this
        simp only [vecRemove, hr, Option.map_some', Option.some_bind, vecInsert,
          this, List.set]

theorem vecRemove_eq_none {T : Type} (l : List T) (i : Nat) (h : l.length ≤ i) :
    vecRemove l i = none := by
  cases hv : vecRemove l i with
  | none => rfl
  | some d =>
    have : (vecRemove l i).isSome = true := by rw [hv]; rfl
    rw [vecRemove_isSome] at this
    omega

theorem list_get?_set_self {T : Type} (l : List T) (i : Nat) (v : T)
    (h : i < l.length) : (l.set i v).get? i = some v := by
  induction l generalizing i with
  | nil => simp at h
  | cons x xs ih =>
    cases i with
    | zero => rfl
    | succ n =>
      simp only [List.length_cons] at h
      exact ih n (by omega)

theorem list_get?_set_ne {T : Type} (l : List T) (i j : Nat) (v : T)
    (h : j ≠ i) : (l.set i v).get? j = l.get? j := by
  induction l generalizing i j with
  | nil => simp
  | cons x xs ih =>
    cases i with
    | zero =>
      cases j with
      | zero => exact absurd rfl h
      | succ m => rfl
    | succ n =>
      cases j with
      | zero => rfl
      | succ m => exact ih n m (fun he => h (by omega))

theorem list_find?_replicate_none {T : Type} (p : T → Bool) (x : T) (n : Nat)
    (h : p x = false) : (List.replicate n x).find? p = none := by
  induction n with
  | zero => rfl
  | succ k ih => simp [List.replicate, List.find?, h, ih]

/-! ### The sample type: an `f32` modelled as a rational or NaN -/

/-- Model of `f32` values stored in channels: a finite value (rational
payload) or NaN. Infinities behave like large finite values for the
comparisons used here, so a rational payload also covers them. -/
inductive F where
  | val : ℚ → F
  | nan : F
  deriving DecidableEq, Repr

/-- IEEE `<`: false whenever either operand is NaN. -/
def F.lt : F → F → Bool
  | F.val a, F.val b => decide (a < b)
  | _, _ => false

/-- IEEE `>`: false whenever either operand is NaN. -/
def F.gt (x y : F) : Bool := F.lt y x

/-- The spec's "lies in the inclusive range [0.0, 1.0]": a real (non-NaN)
value between 0 and 1. -/
def F.inRange01 (x : F) : Prop := ∃ q : ℚ, x = F.val q ∧ 0 ≤ q ∧ q ≤ 1

instance : DecidablePred F.inRange01 := fun x =>
  match x with
  | F.val q =>
    if h : 0 ≤ q ∧ q ≤ 1 then .isTrue ⟨q, rfl, h.1, h.2⟩
    else .isFalse (by rintro ⟨r, hr, h0, h1⟩; cases hr; exact h ⟨h0, h1⟩)
  | F.nan => .isFalse (by rintro ⟨r, hr, -, -⟩; cases hr)

/-! ### `Channel<T>` (`image.rs`) -/

/-- A channel: a buffer of data plus the default kept for resizing. -/
structure Channel (T : Type) where
  data : List T
  dflt : T
  deriving Repr

namespace Channel

/-- Embeds `Channel::new(default, x)`: `x` copies of the default. -/
def new {T : Type} (dflt : T) (x : Nat) : Channel T :=
  { data := List.replicate x dflt, dflt := dflt }

/-- Embeds `Channel::len()`. -/
def len {T : Type} (c : Channel T) : Nat := c.data.length

/-- Embeds `Channel::get(i)`. -/
def get {T : Type} (c : Channel T) (i : Nat) : Option T := c.data.get? i

/-- Embeds `Channel::write(i, data)`: `self.data.remove(i)` then
`self.data.insert(i, data)`; `none` models the panic of `remove` (and of
`insert`) on an out-of-range index. -/
def write {T : Type} (c : Channel T) (i : Nat) (v : T) : Option (Channel T) :=
  ((vecRemove c.data i).bind (fun d => vecInsert d i v)).map
    (fun d => { data := d, dflt := c.dflt })

/-- Embeds `Channel::_resize(new_len)`: truncate, then extend with copies of the
stored default when short. -/
def resizeImpl {T : Type} (c : Channel T) (new_len : Nat) : Channel T :=
  if (c.data.take new_len).length < new_len then
    { data := c.data.take new_len ++
        List.replicate (new_len - (c.data.take new_len).length) c.dflt,
      dflt := c.dflt }
  else
    { data := c.data.take new_len, dflt := c.dflt }

/-- Embeds `Channel::resize(new_len)`: the consuming wrapper around `_resize`. -/
def resize {T : Type} (c : Channel T) (new_len : Nat) : Channel T :=
  c.resizeImpl new_len

/-- Model of writing through `get_mut(i)`: `*get_mut(i).unwrap() = v`
(only used where `get` already succeeded, so `List.set` is in range). -/
def setAt {T : Type} (c : Channel T) (i : Nat) (v : T) : Channel T :=
  { data := c.data.set i v, dflt := c.dflt }

end Channel

/-! ### `ChannelIterator` (`image.rs`) -/

/-- The iterator state: the channel and the cursor `at`. -/
structure ChannelIterator (T : Type) where
  chan : Channel T
  at_ : Nat

/-- Embeds `Channel::iter()`. -/
def Channel.iter {T : Type} (c : Channel T) : ChannelIterator T :=
  { chan := c, at_ := 0 }

namespace ChannelIterator

/-- Embeds `Iterator::next`: increments `at`, then yields element `at - 1` when in
range. -/
def next {T : Type} (it : ChannelIterator T) : Option T × ChannelIterator T :=
  let it2 : ChannelIterator T := { chan := it.chan, at_ := it.at_ + 1 }
  if it2.at_ - 1 ≥ it.chan.len then (none, it2)
  else (it.chan.get (it2.at_ - 1), it2)

/-- Embeds `Iterator::size_hint`: always reports the full channel length. -/
def size_hint {T : Type} (it : ChannelIterator T) : Nat × Option Nat :=
  (it.chan.len, some it.chan.len)

/-- Embeds `ExactSizeIterator::len` (trait default): first component of
`size_hint`. -/
def exactLen {T : Type} (it : ChannelIterator T) : Nat :=
  it.size_hint.1

/-- The iterator state after `k` calls to `next`. -/
def nextN {T : Type} (it : ChannelIterator T) : Nat → ChannelIterator T
  | 0 => it
  | k + 1 => (nextN it k).next.2

end ChannelIterator

/-! ### `Image<T>` (`image.rs`) -/

/-- A collection of channels plus the canonical length all channels must
have. -/
structure Image (T : Type) where
  channels : List (Channel T)
  len : Nat
  deriving Repr

namespace Image

/-- Embeds `Image::new(len)`: no channels yet. -/
def new (T : Type) (len : Nat) : Image T :=
  { channels := [], len := len }

/-- Embeds `Image::create_channel(default)`: pushes a fresh channel of the canonical
length. -/
def create_channel {T : Type} (img : Image T) (dflt : T) : Image T :=
  { channels := img.channels ++ [Channel.new dflt img.len], len := img.len }

/-- Embeds `Image::channel(i)`. -/
def channel {T : Type} (img : Image T) (i : Nat) : Option (Channel T) :=
  img.channels.get? i

/-- Embeds `Image::count()`. -/
def count {T : Type} (img : Image T) : Nat := img.channels.length

/-- Embeds `Image::resize(new_len)`: set the canonical length, then `_resize` every
channel. -/
def resize {T : Type} (img : Image T) (new_len : Nat) : Image T :=
  { channels := img.channels.map (fun c => c.resizeImpl new_len),
    len := new_len }

/-- Model of in-place replacement of channel `i` (mutation through
`channel_mut(i)`). -/
def setChannel {T : Type} (img : Image T) (i : Nat) (c : Channel T) : Image T :=
  { channels := img.channels.set i c, len := img.len }

/-- One mutation step on an image: `create_channel`, `resize`, or a
successful `write` through `channel_mut` (read operations do not change the
state). -/
inductive Step {T : Type} : Image T → Image T → Prop where
  | create (img : Image T) (d : T) : Step img (img.create_channel d)
  | resize (img : Image T) (n : Nat) : Step img (img.resize n)
  | write (img : Image T) (i j : Nat) (v : T) (c c' : Channel T)
      (hc : img.channel i = some c) (hw : c.write j v = some c') :
      Step img (img.setChannel i c')

/-- Images reachable from `Image::new(len)` by any sequence of steps. -/
inductive Reachable {T : Type} (len : Nat) : Image T → Prop where
  | base : Reachable len (Image.new T len)
  | step (img img' : Image T) (h : Reachable len img) (hs : Step img img') :
      Reachable len img'

end Image

/-! ### The RGBA format (`format/rgba.rs`) -/

/-- Embeds `RgbaChannel`: the four channel names. -/
inductive RgbaChannel where
  | Red
  | Green
  | Blue
  | Alpha
  deriving DecidableEq, Repr

/-- Embeds `InvalidData(got, lower, upper, inclusive)`. -/
structure InvalidData (T : Type) where
  got : T
  lower : T
  upper : T
  inclusive : Bool
  deriving DecidableEq, Repr

/-- Modelled from the spec: `ImageFormatError<C>` (declared in the format
module, not under `src/`); only the two constructors used by `rgba.rs` are
needed: an out-of-bounds signal carrying the coordinates, and a missing-data
signal carrying the channel name and coordinates. -/
inductive ImageFormatError where
  | OutOfBounds : Nat → Nat → ImageFormatError
  | MissingData : RgbaChannel → Nat → Nat → ImageFormatError
  deriving DecidableEq, Repr

/-- Modelled from the spec: the external `palette::Colora` color value, whose
construction (`Colora::rgb`) and decomposition (`to_pixel` after conversion
to `Rgba`) round-trip losslessly on the four components. -/
structure Colora where
  r : F
  g : F
  b : F
  a : F
  deriving DecidableEq, Repr

/-- Modelled from the spec: `Colora::rgb(r, g, b, a)`. -/
def Colora.rgb (r g b a : F) : Colora := { r := r, g := g, b := b, a := a }

/-- Modelled from the spec: `Into::<Rgba>::into(c).to_pixel()`, the lossless
decomposition into the four components. -/
def Colora.to_pixel (c : Colora) : F × F × F × F := (c.r, c.g, c.b, c.a)

/-- Embeds `RgbaImage`: an `Image<f32>`, the four visibility flags, and the
dimensions. -/
structure RgbaImage where
  image : Image F
  channels : List Bool
  width : Nat
  height : Nat

namespace RgbaImage

/-- Embeds `RgbaImage::to_channel`. -/
def to_channel (c : RgbaChannel) : Nat :=
  match c with
  | RgbaChannel.Red => 0
  | RgbaChannel.Green => 1
  | RgbaChannel.Blue => 2
  | RgbaChannel.Alpha => 3

/-- Embeds `RgbaImage::new(w, h)`: an image of canonical length `w * h` with four
channels (defaults 0, 0, 0, 1) and all visibility flags false. -/
def new (w h : Nat) : RgbaImage :=
  let i := Image.new F (w * h)
  let i := i.create_channel (F.val 0)
  let i := i.create_channel (F.val 0)
  let i := i.create_channel (F.val 0)
  let i := i.create_channel (F.val 1)
  { image := i, channels := [false, false, false, false], width := w, height := h }

/-- Embeds `self.channels[to_channel(c)]` (the index is always below 4, so the
array access cannot panic; `getD` is exact here). -/
def is_channel_visible (img : RgbaImage) (c : RgbaChannel) : Bool :=
  img.channels.getD (to_channel c) false

/-- Embeds `set_channel_visible(c, enabled)`. -/
def set_channel_visible (img : RgbaImage) (c : RgbaChannel) (enabled : Bool) :
    RgbaImage :=
  { img with channels := img.channels.set (to_channel c) enabled }

/-- The sample predicate of `validate`: `*x > 1.0 || *x < 0.0`. -/
def outOfRangeCmp (x : F) : Bool := x.gt (F.val 1) || x.lt (F.val 0)

/-- The loop of `validate`: for each channel in index order, find the first
sample with `x > 1.0 || x < 0.0` (via `iter().find`, which scans in index
order); on the first hit return `InvalidData(v, 0.0, 1.0, true)`. -/
def validateGo : List (Channel F) → Except (InvalidData F) Unit
  | [] => Except.ok ()
  | c :: rest =>
    match c.data.find? outOfRangeCmp with
    | some v => Except.error { got := v, lower := F.val 0, upper := F.val 1,
                               inclusive := true }
    | none => validateGo rest

/-- Embeds `validate()`. -/
def validate (img : RgbaImage) : Except (InvalidData F) Unit :=
  validateGo img.image.channels

/-- One visible-gated channel read of `pixel`: when the flag is set, call the
channel accessor (whose `unwrap` panic is `none`) and read index `loc`
(`MissingData` on failure); when the flag is clear, the constant default. -/
def readSample (img : RgbaImage) (cn : RgbaChannel) (dfltVal : F)
    (loc x y : Nat) : Option (Except ImageFormatError F) :=
  if img.is_channel_visible cn then
    match img.image.channel (to_channel cn) with
    | none => none
    | some ch =>
      match ch.get loc with
      | some v => some (Except.ok v)
      | none => some (Except.error (ImageFormatError.MissingData cn x y))
  else
    some (Except.ok dfltVal)

/-- Embeds `pixel(x, y)`: bounds check, then the four gated reads with early error
return, then `Colora::rgb(r, g, b, a)`. -/
def pixel (img : RgbaImage) (x y : Nat) :
    Option (Except ImageFormatError Colora) :=
  if x ≥ img.width ∨ y ≥ img.height then
    some (Except.error (ImageFormatError.OutOfBounds x y))
  else
    let loc := y * img.width + x
    match readSample img RgbaChannel.Red (F.val 0) loc x y with
    | none => none
    | some (Except.error e) => some (Except.error e)
    | some (Except.ok r) =>
      match readSample img RgbaChannel.Green (F.val 0) loc x y with
      | none => none
      | some (Except.error e) => some (Except.error e)
      | some (Except.ok g) =>
        match readSample img RgbaChannel.Blue (F.val 0) loc x y with
        | none => none
        | some (Except.error e) => some (Except.error e)
        | some (Except.ok b) =>
          match readSample img RgbaChannel.Alpha (F.val 1) loc x y with
          | none => none
          | some (Except.error e) => some (Except.error e)
          | some (Except.ok a) => some (Except.ok (Colora.rgb r g b a))

/-- One component write of `set_pixel`:
`chan_mut().get_mut(loc).map(|x| *x = v).ok_or(MissingData)?`. The channel
accessor's `unwrap` panic is `none`; an out-of-range `loc` is the
`MissingData` error. -/
def writeSample (img : RgbaImage) (cn : RgbaChannel) (loc v_x v_y : Nat)
    (v : F) : Option (Except ImageFormatError RgbaImage) :=
  match img.image.channel (to_channel cn) with
  | none => none
  | some ch =>
    match ch.get loc with
    | none => some (Except.error (ImageFormatError.MissingData cn v_x v_y))
    | some _ =>
      some (Except.ok
        { img with image := img.image.setChannel (to_channel cn) (ch.setAt loc v) })

/-- Embeds `set_pixel(x, y, c)`: bounds check, decompose the color, then write the
four components in channel order with early returns. -/
def set_pixel (img : RgbaImage) (x y : Nat) (c : Colora) :
    Option (Except ImageFormatError RgbaImage) :=
  if x ≥ img.width ∨ y ≥ img.height then
    some (Except.error (ImageFormatError.OutOfBounds x y))
  else
    let loc := y * img.width + x
    let p := c.to_pixel
    match writeSample img RgbaChannel.Red loc x y p.1 with
    | none => none
    | some (Except.error e) => some (Except.error e)
    | some (Except.ok img1) =>
      match writeSample img1 RgbaChannel.Green loc x y p.2.1 with
      | none => none
      | some (Except.error e) => some (Except.error e)
      | some (Except.ok img2) =>
        match writeSample img2 RgbaChannel.Blue loc x y p.2.2.1 with
        | none => none
        | some (Except.error e) => some (Except.error e)
        | some (Except.ok img3) =>
          match writeSample img3 RgbaChannel.Alpha loc x y p.2.2.2 with
          | none => none
          | some (Except.error e) => some (Except.error e)
          | some (Except.ok img4) => some (Except.ok img4)

/-- Well-formedness of a reachable `RgbaImage`: exactly four channels and
four visibility flags, and every channel has the canonical length
`width * height` (`RgbaImage` exposes no resize, so this holds for every
image the API can build). -/
def wf (img : RgbaImage) : Prop :=
  img.image.count = 4 ∧ img.channels.length = 4 ∧
  img.image.len = img.width * img.height ∧
  ∀ c ∈ img.image.channels, c.len = img.image.len

instance (img : RgbaImage) : Decidable img.wf := by
  unfold wf
  infer_instance

end RgbaImage

/-! ### More list helpers -/

theorem list_get?_map {T U : Type} (f : T → U) (l : List T) (i : Nat) :
    (l.map f).get? i = (l.get? i).map f := by
  induction l generalizing i with
  | nil => cases i <;> rfl
  | cons x xs ih =>
    cases i with
    | zero => rfl
    | succ n => exact ih n

theorem list_get?_append {T : Type} (l1 l2 : List T) (i : Nat) :
    (l1 ++ l2).get? i =
      if i < l1.length then l1.get? i else l2.get? (i - l1.length) := by
  induction l1 generalizing i with
  | nil => simp
  | cons x xs ih =>
    cases i with
    | zero => simp
    | succ n =>
      have hl : ((x :: xs) ++ l2).get? (n + 1) = (xs ++ l2).get? n := rfl
      have hr : (x :: xs).get? (n + 1) = xs.get? n := rfl
      rw [hl, ih n]
      by_cases h : n < xs.length
      · rw [if_pos h, if_pos (show n + 1 < (x :: xs).length by
          simp only [List.length_cons]; omega), hr]
      · rw [if_neg h, if_neg (show ¬ n + 1 < (x :: xs).length by
          simp only [List.length_cons]; omega)]
        simp only [List.length_cons]
        congr 1
        omega

theorem list_get?_lt_length {T : Type} (l : List T) (i : Nat) (h : i < l.length) :
    ∃ v, l.get? i = some v := by
  induction l generalizing i with
  | nil => simp at h
  | cons x xs ih =>
    cases i with
    | zero => exact ⟨x, rfl⟩
    | succ n => exact ih n (by simpa using Nat.lt_of_succ_lt_succ h)

theorem list_get?_ge_length {T : Type} (l : List T) (i : Nat) (h : l.length ≤ i) :
    l.get? i = none := by
  induction l generalizing i with
  | nil => cases i <;> rfl
  | cons x xs ih =>
    cases i with
    | zero => simp at h
    | succ n => exact ih n (by simpa using Nat.le_of_succ_le_succ h)

/-! ### Channel lemmas -/

namespace Channel

theorem ext2 {T : Type} {c1 c2 : Channel T} (h1 : c1.data = c2.data)
    (h2 : c1.dflt = c2.dflt) : c1 = c2 := by
  cases c1; cases c2; cases h1; cases h2; rfl

theorem new_len {T : Type} (dflt : T) (x : Nat) : (new dflt x).len = x := by
  simp [new, len]

theorem write_eq_some {T : Type} (c : Channel T) (i : Nat) (v : T)
    (h : i < c.len) : c.write i v = some (c.setAt i v) := by
  unfold write setAt
  rw [vecRemove_insert_eq_set c.data i v h]
  rfl

theorem write_eq_none {T : Type} (c : Channel T) (i : Nat) (v : T)
    (h : c.len ≤ i) : c.write i v = none := by
  unfold write
  rw [vecRemove_eq_none c.data i h]
  rfl

theorem write_some_lt {T : Type} (c : Channel T) (i : Nat) (v : T)
    (c' : Channel T) (h : c.write i v = some c') : i < c.len := by
  by_contra hc
  rw [write_eq_none c i v (by omega)] at h
  cases h

theorem write_some_eq {T : Type} (c : Channel T) (i : Nat) (v : T)
    (c' : Channel T) (h : c.write i v = some c') : c' = c.setAt i v := by
  have hi := write_some_lt c i v c' h
  rw [write_eq_some c i v hi] at h
  cases h
  rfl

theorem setAt_len {T : Type} (c : Channel T) (i : Nat) (v : T) :
    (c.setAt i v).len = c.len := by
  simp [setAt, len]

theorem resize_data {T : Type} (c : Channel T) (n : Nat) :
    (c.resize n).data = c.data.take n ++ List.replicate (n - c.len) c.dflt := by
  unfold resize resizeImpl len
  by_cases h2 : n ≤ c.data.length
  · have hmin : (c.data.take n).length = n := by
      simp only [List.length_take]
      omega
    rw [if_neg (by omega)]
    have h0 : n - c.data.length = 0 := by omega
    rw [h0, List.replicate_zero, List.append_nil]
  · have hmin : (c.data.take n).length = c.data.length := by
      simp only [List.length_take]
      omega
    rw [if_pos (by omega), hmin]

theorem resize_dflt {T : Type} (c : Channel T) (n : Nat) :
    (c.resize n).dflt = c.dflt := by
  unfold resize resizeImpl
  by_cases h : (c.data.take n).length < n
  · rw [if_pos h]
  · rw [if_neg h]

theorem resize_len {T : Type} (c : Channel T) (n : Nat) :
    (c.resize n).len = n := by
  unfold len
  rw [resize_data]
  simp only [List.length_append, List.length_take, List.length_replicate]
  unfold len
  omega

theorem resizeImpl_eq_resize {T : Type} (c : Channel T) (n : Nat) :
    c.resizeImpl n = c.resize n := rfl

end Channel

/-! ### Claims C7, C8, C9 -/

/-- C7: `Channel::resize(new_length)` keeps the first
`min(new_length, len)` elements in order and pads with copies of the stored
default; its length becomes `new_length`; it is idempotent at a fixed
target; and growing after shrinking pads with the original default. -/
theorem C7_channel_resize {T : Type} (c : Channel T) (n : Nat) :
    (c.resize n).data = c.data.take n ++ List.replicate (n - c.len) c.dflt ∧
    (c.resize n).len = n ∧
    (c.resize n).resize n = c.resize n ∧
    (∀ m, m ≤ c.len → m ≤ n →
      ((c.resize m).resize n).data =
        c.data.take m ++ List.replicate (n - m) c.dflt) := by
  refine ⟨Channel.resize_data c n, Channel.resize_len c n, ?_, ?_⟩
  · apply Channel.ext2
    · rw [Channel.resize_data (c.resize n) n, Channel.resize_len c n,
        Nat.sub_self, List.replicate_zero, List.append_nil,
        List.take_of_length_le]
      have := Channel.resize_len c n
      unfold Channel.len at this
      omega
    · rw [Channel.resize_dflt]
  · intro m hm hn
    rw [Channel.resize_data (c.resize m) n, Channel.resize_len c m,
      Channel.resize_dflt c m, Channel.resize_data c m]
    have hlen : (c.data.take m).length = m := by
      unfold Channel.len at hm
      simp only [List.length_take]
      omega
    have hms : m - c.len = 0 := by
      omega
    rw [hms, List.replicate_zero, List.append_nil,
      List.take_of_length_le (by omega)]

/-- C7 witness: shrink a 4-long channel to 2, grow back to 5; the suffix is
the original default. -/
theorem C7_channel_resize_witness :
    (2 ≤ (Channel.new (9 : Nat) 4).len ∧ 2 ≤ 5) ∧
    (((Channel.new (9 : Nat) 4).resize 2).resize 5).data =
      (Channel.new (9 : Nat) 4).data.take 2 ++
        List.replicate (5 - 2) (Channel.new (9 : Nat) 4).dflt :=
  ⟨⟨by decide, by decide⟩,
    (C7_channel_resize (Channel.new (9 : Nat) 4) 5).2.2.2 2 (by decide)
      (by decide)⟩

/-- C8: `Channel::write(i, v)` at `i < len` keeps the length, sets index `i`
to `v` and no other index; at `i >= len` it panics (modelled as `none`)
rather than returning a recoverable value. -/
theorem C8_channel_write {T : Type} (c : Channel T) (i : Nat) (v : T) :
    (i < c.len →
      ∃ c', c.write i v = some c' ∧ c'.len = c.len ∧ c'.get i = some v ∧
        ∀ j, j ≠ i → c'.get j = c.get j) ∧
    (c.len ≤ i → c.write i v = none) := by
  constructor
  · intro h
    refine ⟨c.setAt i v, Channel.write_eq_some c i v h, ?_, ?_, ?_⟩
    · exact Channel.setAt_len c i v
    · unfold Channel.setAt Channel.get
      exact list_get?_set_self c.data i v h
    · intro j hj
      unfold Channel.setAt Channel.get
      exact list_get?_set_ne c.data i j v hj
  · intro h
    exact Channel.write_eq_none c i v h

/-- C8 witness. -/
theorem C8_channel_write_witness :
    ((0 : Nat) < (Channel.new (7 : Nat) 3).len ∧
      ∃ c', (Channel.new (7 : Nat) 3).write 0 9 = some c' ∧
        c'.len = (Channel.new (7 : Nat) 3).len ∧ c'.get 0 = some 9 ∧
        ∀ j, j ≠ 0 → c'.get j = (Channel.new (7 : Nat) 3).get j) ∧
    ((Channel.new (7 : Nat) 3).len ≤ 5 ∧
      (Channel.new (7 : Nat) 3).write 5 9 = none) := by
  constructor
  · exact ⟨by decide, (C8_channel_write (Channel.new (7 : Nat) 3) 0 9).1
      (by decide)⟩
  · exact ⟨by decide, (C8_channel_write (Channel.new (7 : Nat) 3) 5 9).2
      (by decide)⟩

theorem list_get?_some_lt {T : Type} (l : List T) (i : Nat) (v : T)
    (h : l.get? i = some v) : i < l.length := by
  by_contra hc
  rw [list_get?_ge_length l i (by omega)] at h
  cases h

/-- C9: on a two-element channel, the iterator yields the two elements in
index order and then `none` (the order half of the claim), but after the
first `next` only one element remains to be yielded while `size_hint` (and
the `ExactSizeIterator` length derived from it) still reports 2 — the code
reports the full channel length at every point, not the number remaining. -/
theorem C9_iterator_size_bug :
    (({ data := [10, 20], dflt := 0 } : Channel Nat).iter.next.1 = some 10) ∧
    (({ data := [10, 20], dflt := 0 } : Channel Nat).iter.next.2.next.1 =
      some 20) ∧
    (({ data := [10, 20], dflt := 0 } :
        Channel Nat).iter.next.2.next.2.next.1 = none) ∧
    (({ data := [10, 20], dflt := 0 } : Channel Nat).iter.next.2.size_hint =
      (2, some 2)) ∧
    (({ data := [10, 20], dflt := 0 } : Channel Nat).iter.next.2.exactLen = 2) := by
  decide

/-! ### Claim C1: the image length invariant -/

/-- C1: every image reachable from `Image::new(len)` by `create_channel`,
`resize` and successful writes through `channel_mut` has every channel's
length equal to the image's canonical `len` — in particular immediately
after `create_channel` (the fresh channel gets the current canonical
length) and immediately after `resize` (every channel is resized to the new
canonical length). -/
theorem C1_image_channel_length_invariant {T : Type} (len : Nat)
    (img : Image T) (h : Image.Reachable len img) :
    ∀ i c, img.channel i = some c → c.len = img.len := by
  induction h with
  | base =>
    intro i c hc
    cases i <;> cases hc
  | step imga imgb hr hs ih =>
    cases hs with
    | create d =>
      intro i c hc
      unfold Image.create_channel Image.channel at hc
      simp only at hc
      rw [list_get?_append] at hc
      by_cases hi : i < imga.channels.length
      · rw [if_pos hi] at hc
        exact ih i c hc
      · rw [if_neg hi] at hc
        rcases hk : i - imga.channels.length with _ | k
        · rw [hk] at hc
          cases hc
          exact Channel.new_len d imga.len
        · rw [hk] at hc
          cases k <;> cases hc
    | resize n =>
      intro i c hc
      unfold Image.resize Image.channel at hc
      simp only at hc
      rw [list_get?_map] at hc
      cases hg : imga.channels.get? i with
      | none => rw [hg] at hc; cases hc
      | some c0 =>
        rw [hg] at hc
        simp only [Option.map_some'] at hc
        cases hc
        rw [Channel.resizeImpl_eq_resize]
        exact Channel.resize_len c0 n
    | write i0 j v c0 c0' hc0 hw =>
      intro i c hc
      unfold Image.setChannel Image.channel at hc
      simp only at hc
      by_cases hi : i = i0
      · subst hi
        have hlt : i < imga.channels.length :=
          list_get?_some_lt imga.channels i c0 hc0
        rw [list_get?_set_self imga.channels i c0' hlt] at hc
        cases hc
        rw [Channel.write_some_eq c0 j v c0' hw, Channel.setAt_len]
        exact ih i c0 hc0
      · rw [list_get?_set_ne imga.channels i0 i c0' hi] at hc
        exact ih i c hc

/-- C1 witness: after one `create_channel` on `Image::new(2)`, channel 0 has
the canonical length. -/
theorem C1_image_channel_length_invariant_witness :
    (Channel.new (7 : Nat) 2).len = ((Image.new Nat 2).create_channel 7).len :=
  C1_image_channel_length_invariant 2 ((Image.new Nat 2).create_channel 7)
    (Image.Reachable.step (Image.new Nat 2) ((Image.new Nat 2).create_channel 7)
      Image.Reachable.base (Image.Step.create (Image.new Nat 2) 7))
    0 (Channel.new 7 2) rfl

/-! ### RgbaImage helper lemmas -/

theorem list_mem_set {T : Type} (l : List T) (i : Nat) (v x : T)
    (h : x ∈ l.set i v) : x = v ∨ x ∈ l := by
  induction l generalizing i with
  | nil => simp [List.set] at h
  | cons y ys ih =>
    cases i with
    | zero =>
      rcases List.mem_cons.mp h with h1 | h1
      · exact Or.inl h1
      · exact Or.inr (List.mem_cons_of_mem y h1)
    | succ n =>
      rcases List.mem_cons.mp h with h1 | h1
      · exact Or.inr (by rw [h1]; exact List.mem_cons_self y ys)
      · rcases ih n h1 with h2 | h2
        · exact Or.inl h2
        · exact Or.inr (List.mem_cons_of_mem y h2)

theorem list_get?_mem {T : Type} (l : List T) (i : Nat) (v : T)
    (h : l.get? i = some v) : v ∈ l := by
  induction l generalizing i with
  | nil => cases i <;> cases h
  | cons y ys ih =>
    cases i with
    | zero => cases h; exact List.mem_cons_self _ _
    | succ n => exact List.mem_cons_of_mem y (ih n h)

namespace Image

theorem channel_setChannel_self {T : Type} (img : Image T) (i : Nat)
    (c : Channel T) (h : i < img.count) :
    (img.setChannel i c).channel i = some c :=
  list_get?_set_self img.channels i c h

theorem channel_setChannel_ne {T : Type} (img : Image T) (i j : Nat)
    (c : Channel T) (h : j ≠ i) :
    (img.setChannel i c).channel j = img.channel j :=
  list_get?_set_ne img.channels i j c h

theorem count_setChannel {T : Type} (img : Image T) (i : Nat) (c : Channel T) :
    (img.setChannel i c).count = img.count := by
  simp [setChannel, count]

theorem len_setChannel {T : Type} (img : Image T) (i : Nat) (c : Channel T) :
    (img.setChannel i c).len = img.len := rfl

end Image

namespace RgbaImage

/-- The decomposition of a color into the component stored in each physical
channel. -/
def componentOf (cn : RgbaChannel) (c : Colora) : F :=
  match cn with
  | RgbaChannel.Red => c.r
  | RgbaChannel.Green => c.g
  | RgbaChannel.Blue => c.b
  | RgbaChannel.Alpha => c.a

theorem new_width (w h : Nat) : (new w h).width = w := rfl

theorem new_height (w h : Nat) : (new w h).height = h := rfl

theorem new_image_channels (w h : Nat) :
    (new w h).image.channels =
      [Channel.new (F.val 0) (w * h), Channel.new (F.val 0) (w * h),
       Channel.new (F.val 0) (w * h), Channel.new (F.val 1) (w * h)] := rfl

theorem new_invisible (w h : Nat) (cn : RgbaChannel) :
    (new w h).is_channel_visible cn = false := by
  cases cn <;> rfl

theorem readSample_invisible (img : RgbaImage) (cn : RgbaChannel) (dfltVal : F)
    (loc x y : Nat) (h : img.is_channel_visible cn = false) :
    readSample img cn dfltVal loc x y = some (Except.ok dfltVal) := by
  unfold readSample
  rw [h]
  simp

theorem readSample_visible (img : RgbaImage) (cn : RgbaChannel) (dfltVal : F)
    (loc x y : Nat) (ch : Channel F) (v : F)
    (hv : img.is_channel_visible cn = true)
    (hch : img.image.channel (to_channel cn) = some ch)
    (hget : ch.get loc = some v) :
    readSample img cn dfltVal loc x y = some (Except.ok v) := by
  unfold readSample
  rw [hv]
  simp only [if_true, hch, hget]

theorem pixel_eq_of_reads (img : RgbaImage) (x y : Nat) (r g b a : F)
    (hx : x < img.width) (hy : y < img.height)
    (hr : readSample img RgbaChannel.Red (F.val 0) (y * img.width + x) x y =
      some (Except.ok r))
    (hg : readSample img RgbaChannel.Green (F.val 0) (y * img.width + x) x y =
      some (Except.ok g))
    (hb : readSample img RgbaChannel.Blue (F.val 0) (y * img.width + x) x y =
      some (Except.ok b))
    (ha : readSample img RgbaChannel.Alpha (F.val 1) (y * img.width + x) x y =
      some (Except.ok a)) :
    img.pixel x y = some (Except.ok (Colora.rgb r g b a)) := by
  unfold pixel
  rw [if_neg (by omega)]
  simp only [hr, hg, hb, ha]

end RgbaImage

/-! ### `validate` lemmas -/

theorem validate_new (w h : Nat) :
    (RgbaImage.new w h).validate = Except.ok () := by
  show RgbaImage.validateGo
    [Channel.new (F.val 0) (w * h), Channel.new (F.val 0) (w * h),
     Channel.new (F.val 0) (w * h), Channel.new (F.val 1) (w * h)] =
    Except.ok ()
  have h0 : (Channel.new (F.val 0) (w * h)).data.find?
      RgbaImage.outOfRangeCmp = none :=
    list_find?_replicate_none _ _ _ (by decide)
  have h1 : (Channel.new (F.val 1) (w * h)).data.find?
      RgbaImage.outOfRangeCmp = none :=
    list_find?_replicate_none _ _ _ (by decide)
  simp only [RgbaImage.validateGo, h0, h1]

theorem validateGo_ok_iff (chans : List (Channel F)) :
    RgbaImage.validateGo chans = Except.ok () ↔
      ∀ c ∈ chans, ∀ x ∈ c.data, RgbaImage.outOfRangeCmp x = false := by
  induction chans with
  | nil => simp [RgbaImage.validateGo]
  | cons c rest ih =>
    unfold RgbaImage.validateGo
    cases hf : c.data.find? RgbaImage.outOfRangeCmp with
    | some v =>
      constructor
      · intro hcon; cases hcon
      · intro hall
        exfalso
        have hv := List.find?_some hf
        have hm := List.mem_of_find?_eq_some hf
        have := hall c (List.mem_cons_self _ _) v hm
        rw [hv] at this
        cases this
    | none =>
      rw [ih]
      constructor
      · intro hrest c' hc' x hx
        rcases List.mem_cons.mp hc' with h1 | h1
        · subst h1
          have := List.find?_eq_none.mp hf x hx
          simpa using this
        · exact hrest c' h1 x hx
      · intro hall c' hc' x hx
        exact hall c' (List.mem_cons_of_mem _ hc') x hx

theorem list_find?_some_first {T : Type} (p : T → Bool) (l : List T) (v : T)
    (h : l.find? p = some v) :
    ∃ i, l.get? i = some v ∧ p v = true ∧
      ∀ j x, j < i → l.get? j = some x → p x = false := by
  induction l with
  | nil => cases h
  | cons a as ih =>
    by_cases hp : p a
    · rw [List.find?_cons_of_pos as hp] at h
      cases h
      exact ⟨0, rfl, hp, by intro j x hj; omega⟩
    · rw [List.find?_cons_of_neg as hp] at h
      rcases ih h with ⟨i, hg, hv, hfirst⟩
      refine ⟨i + 1, hg, hv, ?_⟩
      intro j x hj hx
      cases j with
      | zero =>
        cases hx
        exact Bool.not_eq_true _ ▸ (by simpa using hp)
      | succ k =>
        exact hfirst k x (by omega) hx

/-- The reported sample is first in channel-creation order and, within its
channel, first in index order. -/
def isFirstViolation (chans : List (Channel F)) (v : F) : Prop :=
  ∃ ci c i, chans.get? ci = some c ∧ c.data.get? i = some v ∧
    RgbaImage.outOfRangeCmp v = true ∧
    (∀ cj cc, cj < ci → chans.get? cj = some cc →
      ∀ x ∈ cc.data, RgbaImage.outOfRangeCmp x = false) ∧
    (∀ j x, j < i → c.data.get? j = some x →
      RgbaImage.outOfRangeCmp x = false)

theorem validateGo_error_first (chans : List (Channel F)) (e : InvalidData F)
    (h : RgbaImage.validateGo chans = Except.error e) :
    e.lower = F.val 0 ∧ e.upper = F.val 1 ∧ e.inclusive = true ∧
      isFirstViolation chans e.got := by
  induction chans with
  | nil => cases h
  | cons c rest ih =>
    unfold RgbaImage.validateGo at h
    cases hf : c.data.find? RgbaImage.outOfRangeCmp with
    | some v =>
      rw [hf] at h
      cases h
      rcases list_find?_some_first _ _ _ hf with ⟨i, hg, hv, hfirst⟩
      refine ⟨rfl, rfl, rfl, 0, c, i, rfl, hg, hv, ?_, hfirst⟩
      intro cj cc hj
      omega
    | none =>
      rw [hf] at h
      rcases ih h with ⟨hl, hu, hin, ci, cx, i, hgc, hgi, hv, hprev, hfirst⟩
      refine ⟨hl, hu, hin, ci + 1, cx, i, hgc, hgi, hv, ?_, hfirst⟩
      intro cj cc hj hcc
      cases cj with
      | zero =>
        cases hcc
        intro x hx
        have := List.find?_eq_none.mp hf x hx
        simpa using this
      | succ k =>
        exact hprev k cc (by omega) hcc

/-! ### Claim C2 -/

/-- C2: a freshly constructed `RgbaImage::new(w, h)` has all four channels
invisible; for every in-bounds coordinate `pixel(x, y)` returns the color
(0, 0, 0, 1); and `validate()` succeeds on it. -/
theorem C2_fresh_rgba_image (w h x y : Nat) (hx : x < w) (hy : y < h) :
    ((RgbaImage.new w h).is_channel_visible RgbaChannel.Red = false ∧
     (RgbaImage.new w h).is_channel_visible RgbaChannel.Green = false ∧
     (RgbaImage.new w h).is_channel_visible RgbaChannel.Blue = false ∧
     (RgbaImage.new w h).is_channel_visible RgbaChannel.Alpha = false) ∧
    (RgbaImage.new w h).pixel x y =
      some (Except.ok (Colora.rgb (F.val 0) (F.val 0) (F.val 0) (F.val 1))) ∧
    (RgbaImage.new w h).validate = Except.ok () := by
  refine ⟨⟨RgbaImage.new_invisible w h _, RgbaImage.new_invisible w h _,
    RgbaImage.new_invisible w h _, RgbaImage.new_invisible w h _⟩, ?_,
    validate_new w h⟩
  exact RgbaImage.pixel_eq_of_reads (RgbaImage.new w h) x y
    (F.val 0) (F.val 0) (F.val 0) (F.val 1) hx hy
    (RgbaImage.readSample_invisible _ _ _ _ _ _ (RgbaImage.new_invisible w h _))
    (RgbaImage.readSample_invisible _ _ _ _ _ _ (RgbaImage.new_invisible w h _))
    (RgbaImage.readSample_invisible _ _ _ _ _ _ (RgbaImage.new_invisible w h _))
    (RgbaImage.readSample_invisible _ _ _ _ _ _ (RgbaImage.new_invisible w h _))

/-- C2 witness, at `w = h = 1`, `x = y = 0`. -/
theorem C2_fresh_rgba_image_witness :
    (0 < 1 ∧ 0 < 1) ∧
    (RgbaImage.new 1 1).pixel 0 0 =
      some (Except.ok (Colora.rgb (F.val 0) (F.val 0) (F.val 0) (F.val 1))) :=
  ⟨⟨by decide, by decide⟩, (C2_fresh_rgba_image 1 1 0 0 (by decide)
    (by decide)).2.1⟩

/-! ### Claims C10 and C3 -/

/-- A 1x1 RGBA image whose red channel holds a NaN sample (reachable: NaN
can be written through `set_pixel`, which stores components unchecked). -/
def nanImg : RgbaImage :=
  { image :=
      { channels :=
          [{ data := [F.nan], dflt := F.val 0 },
           { data := [F.val 0], dflt := F.val 0 },
           { data := [F.val 0], dflt := F.val 0 },
           { data := [F.val 1], dflt := F.val 1 }],
        len := 1 },
    channels := [false, false, false, false], width := 1, height := 1 }

/-- A 1x1 RGBA image whose red channel holds the out-of-range sample 2.0. -/
def badImg : RgbaImage :=
  { image :=
      { channels :=
          [{ data := [F.val 2], dflt := F.val 0 },
           { data := [F.val 0], dflt := F.val 0 },
           { data := [F.val 0], dflt := F.val 0 },
           { data := [F.val 1], dflt := F.val 1 }],
        len := 1 },
    channels := [false, false, false, false], width := 1, height := 1 }

/-- C10: `validate()` succeeds whenever no sample compares greater than 1.0
or less than 0.0 under IEEE comparison; in particular the NaN-carrying image
passes `validate()` even though NaN is not a value in [0.0, 1.0]. -/
theorem C10_validate_nan :
    (∀ img : RgbaImage,
      (∀ c ∈ img.image.channels, ∀ x ∈ c.data,
        RgbaImage.outOfRangeCmp x = false) →
      img.validate = Except.ok ()) ∧
    nanImg.validate = Except.ok () ∧
    (∃ c ∈ nanImg.image.channels, F.nan ∈ c.data) ∧
    ¬ F.inRange01 F.nan := by
  refine ⟨?_, rfl, ?_, by decide⟩
  · intro img hall
    exact (validateGo_ok_iff img.image.channels).mpr hall
  · refine ⟨{ data := [F.nan], dflt := F.val 0 }, ?_, ?_⟩
    · exact List.mem_cons_self _ _
    · exact List.mem_cons_self _ _

/-- C10 witness: the general implication applied to the fresh 1x1 image. -/
theorem C10_validate_nan_witness :
    (∀ c ∈ (RgbaImage.new 1 1).image.channels,
      ∀ x ∈ c.data, RgbaImage.outOfRangeCmp x = false) ∧
    (RgbaImage.new 1 1).validate = Except.ok () :=
  ⟨by decide, C10_validate_nan.1 (RgbaImage.new 1 1) (by decide)⟩

/-- C3 counterexample: on the NaN image, a sample (NaN) lies outside the
inclusive range [0.0, 1.0], yet `validate()` succeeds — so "error iff some
sample lies outside [0.0, 1.0]" is false as stated. -/
theorem C3_counterexample :
    nanImg.validate = Except.ok () ∧
    (∃ c ∈ nanImg.image.channels, ∃ x ∈ c.data, ¬ F.inRange01 x) := by
  refine ⟨rfl, { data := [F.nan], dflt := F.val 0 },
    List.mem_cons_self _ _, F.nan, List.mem_cons_self _ _, by decide⟩

/-- C3 (amended): `validate()` errors iff some sample compares greater than
1.0 or less than 0.0 under IEEE comparison (for non-NaN samples this is
exactly "outside the inclusive range [0.0, 1.0]"); the error carries the
offending value with lower bound 0.0, upper bound 1.0 and the inclusivity
flag set; and the reported sample is the first in channel-then-index scan
order. -/
theorem C3_validate_amended (img : RgbaImage) :
    ((∃ e, img.validate = Except.error e) ↔
      ∃ c ∈ img.image.channels, ∃ x ∈ c.data,
        RgbaImage.outOfRangeCmp x = true) ∧
    (∀ q : ℚ, RgbaImage.outOfRangeCmp (F.val q) = true ↔ ¬ (0 ≤ q ∧ q ≤ 1)) ∧
    (∀ e, img.validate = Except.error e →
      e.lower = F.val 0 ∧ e.upper = F.val 1 ∧ e.inclusive = true ∧
      isFirstViolation img.image.channels e.got) := by
  refine ⟨?_, ?_, fun e he => validateGo_error_first img.image.channels e he⟩
  · constructor
    · rintro ⟨e, he⟩
      by_contra hno
      push_neg at hno
      have hall : ∀ c ∈ img.image.channels, ∀ x ∈ c.data,
          RgbaImage.outOfRangeCmp x = false := by
        intro c hc x hx
        have := hno c hc x hx
        cases hcmp : RgbaImage.outOfRangeCmp x
        · rfl
        · exact absurd hcmp this
      have hok := (validateGo_ok_iff img.image.channels).mpr hall
      rw [RgbaImage.validate] at he
      rw [hok] at he
      cases he
    · rintro ⟨c, hc, x, hx, hcmp⟩
      cases hv : img.validate with
      | error e => exact ⟨e, rfl⟩
      | ok u =>
        exfalso
        cases u
        have hall := (validateGo_ok_iff img.image.channels).mp hv
        have := hall c hc x hx
        rw [hcmp] at this
        cases this
  · intro q
    unfold RgbaImage.outOfRangeCmp F.gt F.lt
    constructor
    · intro hb hand
      rcases Bool.or_eq_true_iff.mp hb with h1 | h1
      · have h2 : (1 : ℚ) < q := by simpa using h1
        exact absurd h2 (not_lt.mpr hand.2)
      · have h2 : q < (0 : ℚ) := by simpa using h1
        exact absurd h2 (not_lt.mpr hand.1)
    · intro hand
      rcases not_and_or.mp hand with h1 | h1
      · have : q < 0 := lt_of_not_ge h1
        apply Bool.or_eq_true_iff.mpr
        right
        simpa using this
      · have : 1 < q := lt_of_not_ge h1
        apply Bool.or_eq_true_iff.mpr
        left
        simpa using this

/-- The error `badImg.validate` reports. -/
def badErr : InvalidData F :=
  { got := F.val 2, lower := F.val 0, upper := F.val 1, inclusive := true }

/-- C3 amended witness: the image with the sample 2.0 in Red reports that
value with bounds [0.0, 1.0] inclusive, first in scan order. -/
theorem C3_validate_amended_witness :
    badImg.validate = Except.error badErr ∧
    (badErr.lower = F.val 0 ∧ badErr.upper = F.val 1 ∧
      badErr.inclusive = true ∧
      isFirstViolation badImg.image.channels badErr.got) :=
  ⟨rfl, (C3_validate_amended badImg).2.2 badErr rfl⟩

/-! ### Bounds and per-channel step lemmas -/

theorem loc_lt (w h x y : Nat) (hx : x < w) (hy : y < h) :
    y * w + x < w * h := by
  have h1 : (y + 1) * w = y * w + w := by ring
  have h2 : (y + 1) * w ≤ h * w := Nat.mul_le_mul_right w (Nat.succ_le_of_lt hy)
  have h3 : h * w = w * h := Nat.mul_comm h w
  omega

namespace RgbaImage

theorem to_channel_lt (cn : RgbaChannel) : to_channel cn < 4 := by
  cases cn <;> decide

theorem wf_channel (img : RgbaImage) (hwf : img.wf) (k : Nat) (hk : k < 4) :
    ∃ ch, img.image.channel k = some ch ∧ ch.len = img.image.len := by
  rcases hwf with ⟨hc, -, -, hlen⟩
  have hk2 : k < img.image.channels.length := by
    unfold Image.count at hc
    omega
  rcases list_get?_lt_length _ _ hk2 with ⟨ch, hch⟩
  exact ⟨ch, hch, hlen ch (list_get?_mem _ _ _ hch)⟩

theorem writeSample_eq (img : RgbaImage) (cn : RgbaChannel)
    (loc vx vy : Nat) (v : F) (ch : Channel F)
    (hch : img.image.channel (to_channel cn) = some ch)
    (hloc : loc < ch.len) :
    writeSample img cn loc vx vy v =
      some (Except.ok { img with
        image := img.image.setChannel (to_channel cn) (ch.setAt loc v) }) := by
  unfold writeSample
  have hget : ∃ w0, ch.get loc = some w0 := list_get?_lt_length ch.data loc hloc
  rcases hget with ⟨w0, hw0⟩
  simp only [hch, hw0]

/-- One `writeSample` on a well-formed image: succeeds, preserves the
visibility flags, the dimensions, the canonical length, the channel count
and well-formedness; replaces exactly the named channel with its `setAt`
update and leaves every other channel untouched. -/
theorem write_step (img : RgbaImage) (cn : RgbaChannel) (loc vx vy : Nat)
    (v : F) (hwf : img.wf) (hloc : loc < img.image.len) :
    ∃ img', writeSample img cn loc vx vy v = some (Except.ok img') ∧
      img'.channels = img.channels ∧ img'.width = img.width ∧
      img'.height = img.height ∧ img'.image.len = img.image.len ∧
      img'.image.count = img.image.count ∧ img'.wf ∧
      (∃ ch, img.image.channel (to_channel cn) = some ch ∧
        img'.image.channel (to_channel cn) = some (ch.setAt loc v)) ∧
      (∀ k, k ≠ to_channel cn → img'.image.channel k = img.image.channel k) := by
  rcases wf_channel img hwf (to_channel cn) (to_channel_lt cn) with ⟨ch, hch, hl⟩
  have hlocch : loc < ch.len := by omega
  refine ⟨_, writeSample_eq img cn loc vx vy v ch hch hlocch, rfl, rfl, rfl,
    rfl, ?_, ?_, ?_, ?_⟩
  · exact Image.count_setChannel img.image (to_channel cn) (ch.setAt loc v)
  · refine ⟨?_, ?_, ?_, ?_⟩
    · rw [Image.count_setChannel]
      exact hwf.1
    · exact hwf.2.1
    · exact hwf.2.2.1
    · intro c' hc'
      rcases list_mem_set _ _ _ _ hc' with h1 | h1
      · rw [h1, Channel.setAt_len]
        exact hl
      · exact hwf.2.2.2 c' h1
  · refine ⟨ch, hch, ?_⟩
    apply Image.channel_setChannel_self
    rw [hwf.1]
    exact to_channel_lt cn
  · intro k hk
    exact Image.channel_setChannel_ne img.image (to_channel cn) k
      (ch.setAt loc v) hk

theorem read_step (img : RgbaImage) (cn : RgbaChannel) (dfltVal : F)
    (loc vx vy : Nat) (hwf : img.wf) (hloc : loc < img.image.len) :
    ∃ v, readSample img cn dfltVal loc vx vy = some (Except.ok v) := by
  cases hv : img.is_channel_visible cn with
  | true =>
    rcases wf_channel img hwf (to_channel cn) (to_channel_lt cn) with
      ⟨ch, hch, hl⟩
    have hdl : loc < ch.data.length := by
      have hl2 : ch.data.length = img.image.len := hl
      omega
    rcases list_get?_lt_length ch.data loc hdl with ⟨v, hg⟩
    exact ⟨v, readSample_visible img cn dfltVal loc vx vy ch v hv hch hg⟩
  | false =>
    exact ⟨dfltVal, readSample_invisible img cn dfltVal loc vx vy hv⟩

theorem pixel_ok (img : RgbaImage) (x y : Nat) (hwf : img.wf)
    (hx : x < img.width) (hy : y < img.height) :
    ∃ col, img.pixel x y = some (Except.ok col) := by
  have hloc : y * img.width + x < img.image.len := by
    rw [hwf.2.2.1]
    exact loc_lt img.width img.height x y hx hy
  rcases read_step img RgbaChannel.Red (F.val 0) (y * img.width + x) x y hwf
    hloc with ⟨r, hr⟩
  rcases read_step img RgbaChannel.Green (F.val 0) (y * img.width + x) x y hwf
    hloc with ⟨g, hg⟩
  rcases read_step img RgbaChannel.Blue (F.val 0) (y * img.width + x) x y hwf
    hloc with ⟨b, hb⟩
  rcases read_step img RgbaChannel.Alpha (F.val 1) (y * img.width + x) x y hwf
    hloc with ⟨a, ha⟩
  exact ⟨Colora.rgb r g b a, pixel_eq_of_reads img x y r g b a hx hy hr hg hb ha⟩

end RgbaImage

namespace RgbaImage

/-- The full effect of a successful `set_pixel`: all four channels are
updated at the linear location, everything else is framed. -/
theorem set_pixel_spec (img : RgbaImage) (x y : Nat) (c : Colora)
    (hwf : img.wf) (hx : x < img.width) (hy : y < img.height) :
    ∃ img', img.set_pixel x y c = some (Except.ok img') ∧
      img'.channels = img.channels ∧
      img'.width = img.width ∧ img'.height = img.height ∧
      img'.image.len = img.image.len ∧
      img'.image.count = img.image.count ∧
      img'.wf ∧
      (∀ cn : RgbaChannel, ∃ ch,
        img.image.channel (to_channel cn) = some ch ∧
        img'.image.channel (to_channel cn) =
          some (ch.setAt (y * img.width + x) (componentOf cn c))) := by
  have hloc : y * img.width + x < img.image.len := by
    rw [hwf.2.2.1]
    exact loc_lt img.width img.height x y hx hy
  rcases write_step img RgbaChannel.Red (y * img.width + x) x y c.r hwf hloc
    with ⟨i1, hw1, hv1, hwid1, hht1, hlen1, hct1, hwf1, ⟨chR, hchR, hchR2⟩, hfr1⟩
  rcases write_step i1 RgbaChannel.Green (y * img.width + x) x y c.g hwf1
    (by rw [hlen1]; exact hloc)
    with ⟨i2, hw2, hv2, hwid2, hht2, hlen2, hct2, hwf2, ⟨chG, hchG, hchG2⟩, hfr2⟩
  rcases write_step i2 RgbaChannel.Blue (y * img.width + x) x y c.b hwf2
    (by rw [hlen2, hlen1]; exact hloc)
    with ⟨i3, hw3, hv3, hwid3, hht3, hlen3, hct3, hwf3, ⟨chB, hchB, hchB2⟩, hfr3⟩
  rcases write_step i3 RgbaChannel.Alpha (y * img.width + x) x y c.a hwf3
    (by rw [hlen3, hlen2, hlen1]; exact hloc)
    with ⟨i4, hw4, hv4, hwid4, hht4, hlen4, hct4, hwf4, ⟨chA, hchA, hchA2⟩, hfr4⟩
  refine ⟨i4, ?_, ?_, ?_, ?_, ?_, ?_, hwf4, ?_⟩
  · unfold set_pixel
    rw [if_neg (by omega)]
    simp only [Colora.to_pixel]
    simp only [hw1, hw2, hw3, hw4]
  · rw [hv4, hv3, hv2, hv1]
  · rw [hwid4, hwid3, hwid2, hwid1]
  · rw [hht4, hht3, hht2, hht1]
  · rw [hlen4, hlen3, hlen2, hlen1]
  · rw [hct4, hct3, hct2, hct1]
  · intro cn
    cases cn with
    | Red =>
      refine ⟨chR, hchR, ?_⟩
      rw [hfr4 _ (by decide), hfr3 _ (by decide), hfr2 _ (by decide)]
      exact hchR2
    | Green =>
      refine ⟨chG, ?_, ?_⟩
      · rw [← hfr1 _ (by decide)]
        exact hchG
      · rw [hfr4 _ (by decide), hfr3 _ (by decide)]
        exact hchG2
    | Blue =>
      refine ⟨chB, ?_, ?_⟩
      · rw [← hfr1 _ (by decide), ← hfr2 _ (by decide)]
        exact hchB
      · rw [hfr4 _ (by decide)]
        exact hchB2
    | Alpha =>
      refine ⟨chA, ?_, ?_⟩
      · rw [← hfr1 _ (by decide), ← hfr2 _ (by decide), ← hfr3 _ (by decide)]
        exact hchA
      · exact hchA2

end RgbaImage

/-! ### Claims C4, C5, C6 -/

/-- C4: on a well-formed image, `pixel` and `set_pixel` return the
out-of-bounds error exactly when `x >= width` or `y >= height`; in-bounds
coordinates (up to `width-1`, `height-1`) succeed. -/
theorem C4_bounds (img : RgbaImage) (hwf : img.wf) (x y : Nat) (c : Colora) :
    ((x ≥ img.width ∨ y ≥ img.height) →
      img.pixel x y =
        some (Except.error (ImageFormatError.OutOfBounds x y)) ∧
      img.set_pixel x y c =
        some (Except.error (ImageFormatError.OutOfBounds x y))) ∧
    (x < img.width → y < img.height →
      (∃ col, img.pixel x y = some (Except.ok col)) ∧
      (∃ img', img.set_pixel x y c = some (Except.ok img'))) := by
  constructor
  · intro hob
    constructor
    · unfold RgbaImage.pixel
      rw [if_pos hob]
    · unfold RgbaImage.set_pixel
      rw [if_pos hob]
  · intro hx hy
    refine ⟨RgbaImage.pixel_ok img x y hwf hx hy, ?_⟩
    rcases RgbaImage.set_pixel_spec img x y c hwf hx hy with
      ⟨img', hsp, -, -, -, -, -, -, -⟩
    exact ⟨img', hsp⟩

/-- C4 witness: on a fresh 1x1 image, `(1, 0)` is out of bounds (x equals
the width) and `(0, 0)` succeeds. -/
theorem C4_bounds_witness :
    ((RgbaImage.new 1 1).pixel 1 0 =
      some (Except.error (ImageFormatError.OutOfBounds 1 0)) ∧
     (RgbaImage.new 1 1).set_pixel 1 0
        (Colora.rgb (F.val 0) (F.val 0) (F.val 0) (F.val 1)) =
      some (Except.error (ImageFormatError.OutOfBounds 1 0))) ∧
    (∃ col, (RgbaImage.new 1 1).pixel 0 0 = some (Except.ok col)) :=
  ⟨(C4_bounds (RgbaImage.new 1 1) (by decide) 1 0
      (Colora.rgb (F.val 0) (F.val 0) (F.val 0) (F.val 1))).1
      (Or.inl (by decide)),
   ((C4_bounds (RgbaImage.new 1 1) (by decide) 0 0
      (Colora.rgb (F.val 0) (F.val 0) (F.val 0) (F.val 1))).2
      (by decide) (by decide)).1⟩

/-- C5: for in-bounds coordinates on a well-formed image, `set_pixel`
(whatever the visibility flags are) writes each decomposed component of the
color to index `y*width + x` of the corresponding physical channel, leaves
the visibility flags unchanged, and leaves every other storage index of
every channel unchanged. -/
theorem C5_set_pixel_writes (img : RgbaImage) (c : Colora) (x y : Nat)
    (hwf : img.wf) (hx : x < img.width) (hy : y < img.height) :
    ∃ img', img.set_pixel x y c = some (Except.ok img') ∧
      img'.channels = img.channels ∧
      (∀ cn : RgbaChannel, ∃ ch ch',
        img.image.channel (RgbaImage.to_channel cn) = some ch ∧
        img'.image.channel (RgbaImage.to_channel cn) = some ch' ∧
        ch'.get (y * img.width + x) =
          some (RgbaImage.componentOf cn c) ∧
        (∀ j, j ≠ y * img.width + x → ch'.get j = ch.get j)) := by
  rcases RgbaImage.set_pixel_spec img x y c hwf hx hy with
    ⟨img', hsp, hvis, -, -, -, -, -, hall⟩
  refine ⟨img', hsp, hvis, ?_⟩
  intro cn
  rcases hall cn with ⟨ch, hch, hch2⟩
  have hchlen : ch.len = img.image.len :=
    hwf.2.2.2 ch (list_get?_mem _ _ _ hch)
  have hloc : y * img.width + x < ch.data.length := by
    have h1 : ch.data.length = img.image.len := hchlen
    have h2 : img.image.len = img.width * img.height := hwf.2.2.1
    have h3 := loc_lt img.width img.height x y hx hy
    omega
  refine ⟨ch, ch.setAt (y * img.width + x) (RgbaImage.componentOf cn c),
    hch, hch2, ?_, ?_⟩
  · exact list_get?_set_self ch.data _ _ hloc
  · intro j hj
    exact list_get?_set_ne ch.data _ j _ hj

/-- C5 witness: writing (1, 0, 0, 1) at (0, 0) of a fresh (all-invisible)
1x1 image. -/
theorem C5_set_pixel_writes_witness :
    ∃ img', (RgbaImage.new 1 1).set_pixel 0 0
        (Colora.rgb (F.val 1) (F.val 0) (F.val 0) (F.val 1)) =
      some (Except.ok img') ∧
      img'.channels = (RgbaImage.new 1 1).channels ∧
      (∀ cn : RgbaChannel, ∃ ch ch',
        (RgbaImage.new 1 1).image.channel (RgbaImage.to_channel cn) =
          some ch ∧
        img'.image.channel (RgbaImage.to_channel cn) = some ch' ∧
        ch'.get (0 * (RgbaImage.new 1 1).width + 0) =
          some (RgbaImage.componentOf cn
            (Colora.rgb (F.val 1) (F.val 0) (F.val 0) (F.val 1))) ∧
        (∀ j, j ≠ 0 * (RgbaImage.new 1 1).width + 0 →
          ch'.get j = ch.get j)) :=
  C5_set_pixel_writes (RgbaImage.new 1 1)
    (Colora.rgb (F.val 1) (F.val 0) (F.val 0) (F.val 1)) 0 0
    (by decide) (by decide) (by decide)

/-- C6: with all channels visible, for in-bounds coordinates and a color
with in-range components, `set_pixel` then `pixel` returns a color whose
four components equal those of the written color. -/
theorem C6_roundtrip (img : RgbaImage) (c : Colora) (x y : Nat)
    (hwf : img.wf)
    (hvis : ∀ cn : RgbaChannel, img.is_channel_visible cn = true)
    (hx : x < img.width) (hy : y < img.height)
    (hr : F.inRange01 c.r) (hg : F.inRange01 c.g)
    (hb : F.inRange01 c.b) (ha : F.inRange01 c.a) :
    ∃ img', img.set_pixel x y c = some (Except.ok img') ∧
      img'.pixel x y = some (Except.ok (Colora.rgb c.r c.g c.b c.a)) := by
  rcases RgbaImage.set_pixel_spec img x y c hwf hx hy with
    ⟨img', hsp, hvisEq, hwid, hht, hlen, -, -, hall⟩
  refine ⟨img', hsp, ?_⟩
  have hvis' : ∀ cn : RgbaChannel, img'.is_channel_visible cn = true := by
    intro cn
    unfold RgbaImage.is_channel_visible
    rw [hvisEq]
    exact hvis cn
  have hget : ∀ cn : RgbaChannel, ∃ ch',
      img'.image.channel (RgbaImage.to_channel cn) = some ch' ∧
      ch'.get (y * img.width + x) =
        some (RgbaImage.componentOf cn c) := by
    intro cn
    rcases hall cn with ⟨ch, hch, hch2⟩
    have hchlen : ch.len = img.image.len :=
      hwf.2.2.2 ch (list_get?_mem _ _ _ hch)
    have hloc : y * img.width + x < ch.data.length := by
      have h1 : ch.data.length = img.image.len := hchlen
      have h2 : img.image.len = img.width * img.height := hwf.2.2.1
      have h3 := loc_lt img.width img.height x y hx hy
      omega
    exact ⟨ch.setAt (y * img.width + x) (RgbaImage.componentOf cn c), hch2,
      list_get?_set_self ch.data _ _ hloc⟩
  rcases hget RgbaChannel.Red with ⟨chR, hchR, hgR⟩
  rcases hget RgbaChannel.Green with ⟨chG, hchG, hgG⟩
  rcases hget RgbaChannel.Blue with ⟨chB, hchB, hgB⟩
  rcases hget RgbaChannel.Alpha with ⟨chA, hchA, hgA⟩
  have hwid' : y * img'.width + x = y * img.width + x := by rw [hwid]
  apply RgbaImage.pixel_eq_of_reads img' x y c.r c.g c.b c.a
    (by omega) (by omega)
  · rw [hwid']
    exact RgbaImage.readSample_visible img' RgbaChannel.Red (F.val 0)
      (y * img.width + x) x y chR c.r (hvis' _) hchR hgR
  · rw [hwid']
    exact RgbaImage.readSample_visible img' RgbaChannel.Green (F.val 0)
      (y * img.width + x) x y chG c.g (hvis' _) hchG hgG
  · rw [hwid']
    exact RgbaImage.readSample_visible img' RgbaChannel.Blue (F.val 0)
      (y * img.width + x) x y chB c.b (hvis' _) hchB hgB
  · rw [hwid']
    exact RgbaImage.readSample_visible img' RgbaChannel.Alpha (F.val 1)
      (y * img.width + x) x y chA c.a (hvis' _) hchA hgA

/-- A fresh 1x1 image with all four channels made visible. -/
def visImg : RgbaImage :=
  ((((RgbaImage.new 1 1).set_channel_visible RgbaChannel.Red
      true).set_channel_visible RgbaChannel.Green
      true).set_channel_visible RgbaChannel.Blue
      true).set_channel_visible RgbaChannel.Alpha true

/-- C6 witness: write (1, 0, 0, 1) at (0, 0) of the all-visible 1x1 image
and read it back. -/
theorem C6_roundtrip_witness :
    ∃ img', visImg.set_pixel 0 0
        (Colora.rgb (F.val 1) (F.val 0) (F.val 0) (F.val 1)) =
      some (Except.ok img') ∧
      img'.pixel 0 0 = some (Except.ok
        (Colora.rgb (F.val 1) (F.val 0) (F.val 0) (F.val 1))) :=
  C6_roundtrip visImg (Colora.rgb (F.val 1) (F.val 0) (F.val 0) (F.val 1))
    0 0 (by decide) (fun cn => by cases cn <;> rfl) (by decide) (by decide)
    (by decide) (by decide) (by decide) (by decide)
